import Mathlib

/-
  Verification development for the `lazyrg` terminal search front-end
  (Go, single file `main.go`).

  The Go source is shallowly embedded below:
  * `executeRipgrep` / `loadFile` — the two async command runners; external
    process behaviour (exit status, combined output) is passed in explicitly
    as oracle data (`ExecResult`, `LoadEnv`), and the list of external
    processes the function would spawn is returned alongside the result.
  * `model.Update` — the event dispatcher, as a pure function from
    (state, message) to (state, emitted commands).
  * Go library primitives used by the source (`strings.SplitN`,
    `strings.Split`, `strings.TrimSpace`, `strings.Contains`,
    `fmt.Sscanf "%d"`) are embedded as executable list/char functions.
-/

/-- Embedding of Go `unicode.IsSpace` on the characters `strings.TrimSpace`
strips: `\t \n \v \f \r` space, NEL (U+0085) and NBSP (U+00A0). -/
def goIsSpace (c : Char) : Bool :=
  c == ' ' || c == '\t' || c == '\n' || c == '\r' ||
  c == Char.ofNat 11 || c == Char.ofNat 12 || c == Char.ofNat 133 || c == Char.ofNat 160

/-- Embedding of Go `strings.TrimSpace` on the character list of a string. -/
def goTrimSpaceL (l : List Char) : List Char :=
  ((l.dropWhile goIsSpace).reverse.dropWhile goIsSpace).reverse

/-- Embedding of Go `strings.TrimSpace`. -/
def goTrimSpace (s : String) : String :=
  ⟨goTrimSpaceL s.data⟩

/-- Split a character list at the first occurrence of `c`: `none` when `c`
does not occur, otherwise the (separator-free) part before and the part
after that occurrence. -/
def breakAtChar (c : Char) : List Char → Option (List Char × List Char)
  | [] => none
  | x :: xs =>
    if x = c then some ([], xs)
    else
      match breakAtChar c xs with
      | none => none
      | some (p, q) => some (x :: p, q)

/-- Embedding of Go `strings.SplitN(s, sep, n)` for a single-character
separator and `n ≥ 1`: at most `n` parts, the last part being the undivided
remainder. The source calls it with `n = 3`. -/
def splitNChar (c : Char) : Nat → List Char → List (List Char)
  | 0, _ => []
  | 1, l => [l]
  | Nat.succ (Nat.succ n), l =>
    match breakAtChar c l with
    | none => [l]
    | some (p, q) => p :: splitNChar c (n + 1) q

/-- Embedding of Go `strings.Split(s, sep)` for a single-character
separator (used by the source with `"\n"` and the whole output). -/
def splitOnChar (c : Char) : List Char → List (List Char)
  | [] => [[]]
  | x :: xs =>
    if x = c then [] :: splitOnChar c xs
    else
      match splitOnChar c xs with
      | [] => [[x]]
      | h :: t => (x :: h) :: t

/-- Embedding of Go `strings.Contains(s, sub)`. -/
def strContains (s sub : String) : Bool :=
  s.data.tails.any (fun t => sub.data.isPrefixOf t)

/-- Decimal value of a digit character. -/
def digitVal (c : Char) : Nat := c.toNat - 48

/-- Value of a (most-significant-first) digit string. -/
def digitsToNat (ds : List Char) : Nat :=
  ds.foldl (fun acc c => acc * 10 + digitVal c) 0

/-- ASCII decimal digit, the digits `fmt.Sscanf` reads for `%d`. -/
def isDigitChar (c : Char) : Bool :=
  48 ≤ c.toNat && c.toNat ≤ 57

/-- Embedding of Go `fmt.Sscanf(s, "%d", &x)` scanning into a 64-bit `int`:
skip leading blanks, read an optional sign then a non-empty run of decimal
digits; `none` models a scan error — no digit found / empty input, or the
value out of `int` range (Go's scan fails with "value out of range" when
the digits exceed `2^63 - 1`, resp. `2^63` after a minus sign).  Trailing
unconsumed input is not an error for `Sscanf`. -/
def goSscanfD (s : String) : Option Int :=
  let l := s.data.dropWhile (fun c => c == ' ' || c == '\t')
  match l with
  | [] => none
  | c :: rest =>
    if c = '-' then
      let ds := rest.takeWhile isDigitChar
      if ds = [] then none
      else if digitsToNat ds ≤ 2 ^ 63 then some (-(digitsToNat ds : Int))
      else none
    else if c = '+' then
      let ds := rest.takeWhile isDigitChar
      if ds = [] then none
      else if digitsToNat ds ≤ 2 ^ 63 - 1 then some ((digitsToNat ds : Int))
      else none
    else
      let ds := l.takeWhile isDigitChar
      if ds = [] then none
      else if digitsToNat ds ≤ 2 ^ 63 - 1 then some ((digitsToNat ds : Int))
      else none

/-- `type Item struct` of the source: one search match. -/
structure Item where
  fileName : String
  lineNum : String
  content : String
  fullPath : String
deriving DecidableEq

/-- `type searchFinishedMsg struct` of the source; the Go `error` is an
`Option String` holding the error text. -/
structure searchFinishedMsg where
  results : List Item
  err : Option String
deriving DecidableEq

/-- `type fileLoadedMsg struct` of the source. -/
structure fileLoadedMsg where
  content : String
  err : Option String
deriving DecidableEq

/-- An external process spawn performed by a command runner
(`exec.Command` in the source). -/
inductive Proc where
  | rg (pattern path : String)
  | batHighlight (line path : String)
  | batPlain (path : String)
deriving DecidableEq

/-- Oracle for one `cmd.CombinedOutput()` call of the search tool:
combined output and whether the call returned a non-nil error
(nonzero exit status or spawn failure). -/
structure ExecResult where
  output : String
  hasErr : Bool
deriving DecidableEq

/-- One line of the loop body of `executeRipgrep` (source lines 321–337):
blank lines are skipped, a line is split at the first two colons and must
yield three parts; all stored fields are trimmed. -/
def parseLineL (l : List Char) : Option Item :=
  if goTrimSpaceL l = [] then none
  else
    match splitNChar ':' 3 l with
    | [p0, p1, p2] =>
      some { fileName := ⟨goTrimSpaceL p0⟩, lineNum := ⟨goTrimSpaceL p1⟩,
             content := ⟨goTrimSpaceL p2⟩, fullPath := ⟨goTrimSpaceL p0⟩ }
    | _ => none

/-- The record the parsing loop constructs from a well-formed line: the
three `SplitN` parts, trimmed, with `fullPath` duplicating the first (the
default-valued arm is never reached on well-formed lines). -/
def lineRecord (l : List Char) : Item :=
  match splitNChar ':' 3 l with
  | [p0, p1, p2] =>
    { fileName := ⟨goTrimSpaceL p0⟩, lineNum := ⟨goTrimSpaceL p1⟩,
      content := ⟨goTrimSpaceL p2⟩, fullPath := ⟨goTrimSpaceL p0⟩ }
  | _ => { fileName := "", lineNum := "", content := "", fullPath := "" }

/-- The full parsing loop of `executeRipgrep`: split the combined output on
newlines and keep the records of the accepted lines, in order. -/
def parseRipgrepOutputL (l : List Char) : List Item :=
  (splitOnChar '\n' l).filterMap parseLineL

/-- Same, on a string. -/
def parseRipgrepOutput (output : String) : List Item :=
  parseRipgrepOutputL output.data

/-- Embedding of `executeRipgrep` (source lines 291–344).  The oracle `run`
supplies the process result; the returned list records the processes
spawned (empty when the empty-pattern guard fires). -/
def executeRipgrep (pattern path : String) (run : ExecResult) :
    searchFinishedMsg × List Proc :=
  if pattern = "" then
    ({ results := [], err := some "empty search pattern" }, [])
  else
    let spawned := [Proc.rg pattern path]
    if run.hasErr && strContains run.output "No such file or directory" then
      ({ results := [], err := some ("directory not found: " ++ path) }, spawned)
    else if run.hasErr && (goTrimSpaceL run.output.data).isEmpty then
      ({ results := [], err := none }, spawned)
    else
      ({ results := parseRipgrepOutputL run.output.data, err := none }, spawned)

/-- Oracle for one `bat` invocation: combined output and, when the call
returned a non-nil error, the text of `err.Error()`. -/
structure BatRun where
  output : String
  err : Option String
deriving DecidableEq

/-- Environment oracle for `loadFile`: the primary `bat` run (with
`--highlight-line`), the secondary run (without it), and the result of
`os.Open` + `io.ReadAll` on the target file (`Except` error text). -/
structure LoadEnv where
  primary : BatRun
  secondary : BatRun
  readFile : Except String String

/-- `fmt.Sprintf("%4d | ", n)` of the raw fallback renderer. -/
def pad4 (n : Nat) : String :=
  let s := toString n
  (if s.length < 4 then ⟨List.replicate (4 - s.length) ' '⟩ else "") ++ s ++ " | "

/-- The raw fallback renderer of `loadFile` (source lines 371–382): number
every physical line, mark the target line with a leading arrow.  The
terminal emphasis styling (`highlightStyle.Render`) is colour-only
presentation and is modelled as the identity on the line text. -/
def renderPlain (content : String) (lineNumInt : Int) : String :=
  ((splitOnChar '\n' content.data).map (fun l => String.mk l)).enum.foldl
    (fun acc p =>
      let lineNumberStr := pad4 (p.1 + 1)
      if (p.1 : Int) + 1 = lineNumInt then
        acc ++ "→ " ++ lineNumberStr ++ p.2 ++ "\n"
      else
        acc ++ "  " ++ lineNumberStr ++ p.2 ++ "\n")
    ""

/-- Embedding of `loadFile` (source lines 347–401).  Returns the completion
message and the list of external processes spawned, in order. -/
def loadFile (filepath lineNum : String) (env : LoadEnv) :
    fileLoadedMsg × List Proc :=
  match goSscanfD lineNum with
  | none => ({ content := "", err := some ("invalid line number: " ++ lineNum) }, [])
  | some lineNumInt =>
    let spawned1 := [Proc.batHighlight lineNum filepath]
    match env.primary.err with
    | some e =>
      if strContains e "executable file not found" then
        match env.readFile with
        | .error e2 => ({ content := "", err := some e2 }, spawned1)
        | .ok content =>
          ({ content := renderPlain content lineNumInt, err := none }, spawned1)
      else
        match env.secondary.err with
        | some e2 =>
          ({ content := "", err := some e2 }, spawned1 ++ [Proc.batPlain filepath])
        | none =>
          ({ content := env.secondary.output, err := none },
           spawned1 ++ [Proc.batPlain filepath])
    | none => ({ content := env.primary.output, err := none }, spawned1)

/-- `type tab int` of the source with its three constants. -/
inductive Tab where
  | searchTab
  | resultsTab
  | fileTab
deriving DecidableEq

/-- `(m.activeTab + 1) % 3` of the next-tab handler. -/
def Tab.next : Tab → Tab
  | .searchTab => .resultsTab
  | .resultsTab => .fileTab
  | .fileTab => .searchTab

/-- The key bindings the dispatcher distinguishes; `other` is any key
handled by no binding (routed to the active sub-component). -/
inductive KeyPress where
  | quit
  | help
  | tab
  | search
  | back
  | enter
  | inputNext
  | inputPrev
  | other (c : Char)
deriving DecidableEq

/-- The message alphabet of the event loop: key presses, the two async
completion messages, and window resizes. -/
inductive Msg where
  | key (k : KeyPress)
  | searchFinished (results : List Item) (err : Option String)
  | fileLoaded (content : String) (err : Option String)
  | windowSize (w h : Int)
deriving DecidableEq

/-- The commands the dispatcher can emit. -/
inductive Cmd where
  | quit
  | execRipgrep (pattern path : String)
  | load (path lineNum : String)
  | startSpinner
deriving DecidableEq

/-- Modelled from the spec (§4.3): single-line editable text field.  Only
the focus flag and the value are relevant to the dispatcher; routine
updates edit the value only while focused and never change the focus flag
(focus changes only through `Focus`/`Blur`). -/
structure TextInput where
  focused : Bool
  value : String
deriving DecidableEq

/-- `textinput.Focus()`. -/
def TextInput.focus (t : TextInput) : TextInput := { t with focused := true }

/-- `textinput.Blur()`. -/
def TextInput.blur (t : TextInput) : TextInput := { t with focused := false }

/-- Modelled from the spec (§4.3): a routine update appends printable input
to the value while focused; no message changes the focus flag. -/
def TextInput.update (t : TextInput) (msg : Msg) : TextInput :=
  match msg with
  | .key (.other c) => if t.focused then { t with value := t.value.push c } else t
  | _ => t

/-- Modelled from the spec (§3, §4.3): filterable selectable list — ordered
items, selection cursor, optional filter substring. -/
structure ListModel where
  items : List Item
  cursor : Nat
  filter : String
deriving DecidableEq

/-- `list.SetItems`: the items are replaced wholesale. -/
def ListModel.setItems (l : ListModel) (items : List Item) : ListModel :=
  { l with items := items }

/-- `list.SelectedItem()`: the item under the selection cursor. -/
def ListModel.selectedItem (l : ListModel) : Option Item :=
  l.items.get? l.cursor

/-- Modelled from the spec (§4.3): routine updates move the selection
cursor (clamped); they never change the items. -/
def ListModel.update (l : ListModel) (msg : Msg) : ListModel :=
  match msg with
  | .key (.other c) =>
    if c = 'j' then { l with cursor := min (l.cursor + 1) (l.items.length - 1) }
    else if c = 'k' then { l with cursor := l.cursor - 1 }
    else l
  | _ => l

/-- Modelled from the spec (§3, §4.3): scrollable read-only buffer. -/
structure ViewportModel where
  content : String
  yOffset : Nat
  width : Int
  height : Int
deriving DecidableEq

/-- `viewport.SetContent`. -/
def ViewportModel.setContent (v : ViewportModel) (c : String) : ViewportModel :=
  { v with content := c }

/-- `viewport.GotoTop`. -/
def ViewportModel.gotoTop (v : ViewportModel) : ViewportModel :=
  { v with yOffset := 0 }

/-- Modelled from the spec (§4.3): routine updates scroll the buffer; they
never change its content. -/
def ViewportModel.update (v : ViewportModel) (msg : Msg) : ViewportModel :=
  match msg with
  | .key (.other c) =>
    if c = 'j' then { v with yOffset := v.yOffset + 1 }
    else if c = 'k' then { v with yOffset := v.yOffset - 1 }
    else v
  | _ => v

/-- `type model struct` of the source, restricted to the fields the
dispatcher reads or writes (styling-only fields omitted). -/
structure model where
  activeTab : Tab
  searchInput : TextInput
  directoryInput : TextInput
  searchResults : ListModel
  fileViewer : ViewportModel
  statusMessage : String
  statusMessageType : String
  width : Int
  height : Int
  ready : Bool
  helpShowAll : Bool
  currentPath : String
  currentSearchPattern : String
deriving DecidableEq

/-- `initialModel()` (source lines 206–273); `currentPath` stands for the
`os.Getwd()` result. -/
def initialModel (currentPath : String) : model :=
  { activeTab := .searchTab,
    searchInput := { focused := true, value := "" },
    directoryInput := { focused := false, value := "" },
    searchResults := { items := [], cursor := 0, filter := "" },
    fileViewer := { content := "", yOffset := 0, width := 0, height := 0 },
    statusMessage := "Welcome to LazyRG! Press Ctrl+F to search",
    statusMessageType := "info",
    width := 0, height := 0, ready := false, helpShowAll := false,
    currentPath := currentPath, currentSearchPattern := "" }

/-- The component-routing tail of `model.Update` (source lines 540–583):
messages not consumed by the key switch go to the sub-component owned by
the active tab, with the tab/shift-tab focus toggle handled first in the
search tab. -/
def routeToComponent (m : model) (msg : Msg) : model × List Cmd :=
  match m.activeTab with
  | .searchTab =>
    match msg with
    | .key .inputNext =>
      if m.searchInput.focused then
        ({ m with searchInput := m.searchInput.blur,
                  directoryInput := m.directoryInput.focus }, [])
      else
        ({ m with directoryInput := m.directoryInput.blur,
                  searchInput := m.searchInput.focus }, [])
    | .key .inputPrev =>
      if m.searchInput.focused then
        ({ m with searchInput := m.searchInput.blur,
                  directoryInput := m.directoryInput.focus }, [])
      else
        ({ m with directoryInput := m.directoryInput.blur,
                  searchInput := m.searchInput.focus }, [])
    | _ =>
      if m.searchInput.focused then
        ({ m with searchInput := m.searchInput.update msg }, [])
      else
        ({ m with directoryInput := m.directoryInput.update msg }, [])
  | .resultsTab => ({ m with searchResults := m.searchResults.update msg }, [])
  | .fileTab => ({ m with fileViewer := m.fileViewer.update msg }, [])

/-- Embedding of `model.Update` (source lines 403–584). -/
def model.Update (m : model) (msg : Msg) : model × List Cmd :=
  match msg with
  | .key k =>
    match k with
    | .quit => (m, [Cmd.quit])
    | .help => ({ m with helpShowAll := !m.helpShowAll }, [])
    | .tab =>
      let newTab := m.activeTab.next
      match newTab with
      | .searchTab =>
        ({ m with activeTab := newTab, searchInput := m.searchInput.focus }, [])
      | .resultsTab =>
        ({ m with activeTab := newTab },
         if m.searchResults.items.length > 0 then [Cmd.startSpinner] else [])
      | .fileTab => ({ m with activeTab := newTab }, [])
    | .search =>
      if m.activeTab ≠ .searchTab then
        ({ m with activeTab := .searchTab, searchInput := m.searchInput.focus }, [])
      else (m, [])
    | .back =>
      match m.activeTab with
      | .fileTab => ({ m with activeTab := .resultsTab }, [])
      | .resultsTab =>
        ({ m with activeTab := .searchTab, searchInput := m.searchInput.focus }, [])
      | .searchTab => (m, [])
    | .enter =>
      match m.activeTab with
      | .searchTab =>
        if m.searchInput.value ≠ "" then
          let pat := m.searchInput.value
          let searchPath :=
            if m.directoryInput.value ≠ "" then m.directoryInput.value
            else m.currentPath
          ({ m with currentSearchPattern := pat, activeTab := .resultsTab,
                    statusMessage := "Searching for: " ++ pat ++ " in " ++ searchPath,
                    statusMessageType := "info" },
           [Cmd.execRipgrep pat searchPath])
        else routeToComponent m msg
      | .resultsTab =>
        if m.searchResults.items.length > 0 then
          match m.searchResults.selectedItem with
          | some item =>
            ({ m with activeTab := .fileTab,
                      statusMessage := "Viewing file: " ++ item.fullPath,
                      statusMessageType := "info" },
             [Cmd.load item.fullPath item.lineNum])
          | none => routeToComponent m msg
        else routeToComponent m msg
      | .fileTab => routeToComponent m msg
    | .inputNext => routeToComponent m msg
    | .inputPrev => routeToComponent m msg
    | .other _ => routeToComponent m msg
  | .searchFinished results err =>
    match err with
    | some e =>
      ({ m with statusMessage := "Error: " ++ e, statusMessageType := "error" }, [])
    | none =>
      if results.length = 0 then
        ({ m with statusMessage := "No results found", statusMessageType := "info",
                  searchResults := m.searchResults.setItems results }, [])
      else
        ({ m with statusMessage := "Found " ++ toString results.length ++ " results",
                  statusMessageType := "info",
                  searchResults := m.searchResults.setItems results }, [])
  | .fileLoaded content err =>
    match err with
    | some e =>
      ({ m with statusMessage := "Error loading file: " ++ e,
                statusMessageType := "error", activeTab := .resultsTab }, [])
    | none =>
      ({ m with fileViewer := (m.fileViewer.setContent content).gotoTop }, [])
  | .windowSize w h =>
    let availableHeight := h - 6 - 2 - 1 - 2
    let viewH := if m.helpShowAll then availableHeight - 4 else availableHeight
    let fv : ViewportModel :=
      { content := m.fileViewer.content, yOffset := 0, width := w - 8, height := viewH }
    ({ m with width := w, height := h, ready := true, fileViewer := fv }, [])

/-- Fold the dispatcher over an event sequence starting from the initial
state (discarding emitted commands), giving the set of reachable states. -/
def run (currentPath : String) (msgs : List Msg) : model :=
  msgs.foldl (fun m msg => (m.Update msg).1) (initialModel currentPath)


/-! ### Helper lemmas about the embedded Go string primitives -/

theorem breakAtChar_eq_none_iff (c : Char) (l : List Char) :
    breakAtChar c l = none ↔ c ∉ l := by
  induction l with
  | nil => simp [breakAtChar]
  | cons x xs ih =>
    by_cases hx : x = c
    · subst hx
      simp [breakAtChar]
    · cases hb : breakAtChar c xs with
      | none =>
        have hcxs := ih.mp hb
        simp only [breakAtChar, if_neg hx, hb, List.mem_cons]
        constructor
        · intro _ h
          rcases h with h | h
          · exact hx h.symm
          · exact hcxs h
        · intro _
          trivial
      | some pq =>
        obtain ⟨p, q⟩ := pq
        have hcxs : c ∈ xs := by
          by_contra hcn
          rw [ih.mpr hcn] at hb
          cases hb
        simp only [breakAtChar, if_neg hx, hb, List.mem_cons]
        constructor
        · intro h; cases h
        · intro h
          exact absurd (Or.inr hcxs) h

theorem breakAtChar_eq_some (c : Char) (l p q : List Char)
    (h : breakAtChar c l = some (p, q)) : l = p ++ c :: q ∧ c ∉ p := by
  induction l generalizing p q with
  | nil => cases h
  | cons x xs ih =>
    by_cases hx : x = c
    · subst hx
      simp only [breakAtChar, if_pos rfl] at h
      cases h
      simp
    · simp only [breakAtChar, if_neg hx] at h
      cases hb : breakAtChar c xs with
      | none => rw [hb] at h; cases h
      | some pq =>
        rw [hb] at h
        obtain ⟨p', q'⟩ := pq
        simp only [Option.some.injEq, Prod.mk.injEq] at h
        obtain ⟨hp, hq⟩ := h
        obtain ⟨hxs, hnp⟩ := ih p' q' hb
        subst hp hq hxs
        refine ⟨rfl, ?_⟩
        intro hmem
        rcases List.mem_cons.mp hmem with hceq | hmem'
        · exact hx hceq.symm
        · exact hnp hmem'

theorem breakAtChar_append (c : Char) (p q : List Char) (hp : c ∉ p) :
    breakAtChar c (p ++ c :: q) = some (p, q) := by
  induction p with
  | nil => simp [breakAtChar]
  | cons x xs ih =>
    have hx : x ≠ c := fun h => hp (h ▸ List.mem_cons_self x xs)
    have hxs : c ∉ xs := fun h => hp (List.mem_cons_of_mem _ h)
    simp only [List.cons_append, breakAtChar, if_neg hx, List.append_eq, ih hxs]

theorem count_of_breakAtChar (c : Char) (l p q : List Char)
    (h : breakAtChar c l = some (p, q)) : l.count c = q.count c + 1 := by
  obtain ⟨hl, hp⟩ := breakAtChar_eq_some c l p q h
  subst hl
  rw [List.count_append, List.count_cons_self, List.count_eq_zero.mpr hp]
  omega

theorem splitNChar_three_of_count (c : Char) (l : List Char) (h : 2 ≤ l.count c) :
    ∃ p0 p1 rest, splitNChar c 3 l = [p0, p1, rest] := by
  cases hb : breakAtChar c l with
  | none =>
    exfalso
    have := List.count_eq_zero.mpr (breakAtChar_eq_none_iff c l |>.mp hb)
    omega
  | some pq =>
    obtain ⟨p0, q⟩ := pq
    have hcq : 1 ≤ q.count c := by
      have := count_of_breakAtChar c l p0 q hb
      omega
    cases hb2 : breakAtChar c q with
    | none =>
      exfalso
      have := List.count_eq_zero.mpr (breakAtChar_eq_none_iff c q |>.mp hb2)
      omega
    | some pq2 =>
      obtain ⟨p1, rest⟩ := pq2
      exact ⟨p0, p1, rest, by simp [splitNChar, hb, hb2]⟩

theorem count_of_splitNChar_three (c : Char) (l p0 p1 rest : List Char)
    (h : splitNChar c 3 l = [p0, p1, rest]) : 2 ≤ l.count c := by
  cases hb : breakAtChar c l with
  | none =>
    rw [show (3 : Nat) = Nat.succ (Nat.succ 1) from rfl] at h
    simp only [splitNChar, hb] at h
    cases h
  | some pq =>
    obtain ⟨p, q⟩ := pq
    have h1 := count_of_breakAtChar c l p q hb
    rw [show (3 : Nat) = Nat.succ (Nat.succ 1) from rfl] at h
    simp only [splitNChar, hb] at h
    cases hb2 : breakAtChar c q with
    | none =>
      simp only [splitNChar, hb2] at h
      cases h
    | some pq2 =>
      obtain ⟨p1', q2⟩ := pq2
      have h2 := count_of_breakAtChar c q p1' q2 hb2
      omega

theorem mem_dropWhile_of_mem (p : Char → Bool) (l : List Char) (c : Char)
    (hc : c ∈ l) (hp : p c = false) : c ∈ l.dropWhile p := by
  induction l with
  | nil => cases hc
  | cons x xs ih =>
    rw [List.dropWhile_cons]
    split
    · rename_i hx
      rcases List.mem_cons.mp hc with hceq | h'
      · subst hceq
        rw [hp] at hx
        cases hx
      · exact ih h'
    · exact hc

theorem mem_goTrimSpaceL (l : List Char) (c : Char) (hc : c ∈ l)
    (hp : goIsSpace c = false) : c ∈ goTrimSpaceL l := by
  unfold goTrimSpaceL
  rw [List.mem_reverse]
  apply mem_dropWhile_of_mem _ _ _ _ hp
  rw [List.mem_reverse]
  exact mem_dropWhile_of_mem _ _ _ hc hp

theorem all_space_of_goTrimSpaceL_nil (l : List Char) (h : goTrimSpaceL l = []) :
    ∀ c ∈ l, goIsSpace c = true := by
  intro c hc
  by_contra hns
  have hmem := mem_goTrimSpaceL l c hc (Bool.eq_false_iff.mpr hns)
  rw [h] at hmem
  cases hmem

theorem goTrimSpaceL_ne_nil_of_mem (l : List Char) (c : Char) (hc : c ∈ l)
    (hp : goIsSpace c = false) : goTrimSpaceL l ≠ [] := by
  intro h
  have := all_space_of_goTrimSpaceL_nil l h c hc
  rw [hp] at this
  cases this

theorem strContains_false_of_all_space (out : String) (sub : String)
    (c : Char) (rest : List Char)
    (hsub : sub.data = c :: rest) (hcs : goIsSpace c = false)
    (h : ∀ x ∈ out.data, goIsSpace x = true) :
    strContains out sub = false := by
  unfold strContains
  rw [List.any_eq_false]
  intro t ht
  intro hpre
  rw [List.isPrefixOf_iff_prefix] at hpre
  obtain ⟨u, hu⟩ := hpre
  have hct : c ∈ t := by
    rw [← hu, hsub]
    exact List.mem_append_left _ (List.mem_cons_self c rest)
  have hsuf : t <:+ out.data := (List.mem_tails t out.data).mp ht
  have hcout : c ∈ out.data := hsuf.subset hct
  have := h c hcout
  rw [hcs] at this
  cases this

theorem goIsSpace_colon : goIsSpace ':' = false := by decide

theorem parseLineL_eq_ite (l : List Char) :
    parseLineL l = if 2 ≤ l.count ':' then some (lineRecord l) else none := by
  by_cases hc : 2 ≤ l.count ':'
  · obtain ⟨p0, p1, rest, hsplit⟩ := splitNChar_three_of_count ':' l hc
    have hmem : ':' ∈ l := by
      have : 0 < l.count ':' := by omega
      exact List.count_pos_iff.mp this
    have htrim : goTrimSpaceL l ≠ [] :=
      goTrimSpaceL_ne_nil_of_mem l ':' hmem goIsSpace_colon
    rw [if_pos hc]
    unfold parseLineL lineRecord
    rw [if_neg htrim, hsplit]
  · rw [if_neg hc]
    unfold parseLineL
    by_cases htrim : goTrimSpaceL l = []
    · rw [if_pos htrim]
    · rw [if_neg htrim]
      cases hsplit : splitNChar ':' 3 l with
      | nil => rfl
      | cons a t =>
        cases t with
        | nil => rfl
        | cons b t2 =>
          cases t2 with
          | nil => rfl
          | cons d t3 =>
            cases t3 with
            | nil =>
              exfalso
              exact hc (count_of_splitNChar_three ':' l a b d hsplit)
            | cons e t4 => rfl

theorem filterMap_eq_filter_map {α β : Type} (f : α → Option β) (p : α → Bool)
    (g : α → β) (hf : ∀ a, f a = if p a then some (g a) else none) :
    ∀ l : List α, l.filterMap f = (l.filter p).map g := by
  intro l
  induction l with
  | nil => rfl
  | cons x xs ih =>
    rw [List.filterMap_cons, List.filter_cons, hf x]
    by_cases hp : p x = true
    · rw [if_pos hp, if_pos hp, List.map_cons, ih]
    · rw [if_neg hp, if_neg (by simpa using hp), ih]

theorem digitVal_pos (c : Char) (hd : isDigitChar c = true) (hne : c ≠ '0') :
    1 ≤ digitVal c := by
  unfold isDigitChar at hd
  rw [Bool.and_eq_true, decide_eq_true_eq, decide_eq_true_eq] at hd
  have h48 : c.toNat ≠ 48 := by
    intro h
    apply hne
    apply Char.ext
    apply UInt32.ext
    show c.toNat = Char.toNat '0'
    rw [h]
    rfl
  unfold digitVal
  omega

theorem digits_foldl_pos (ds : List Char) (acc : Nat)
    (hd : ∀ c ∈ ds, isDigitChar c = true)
    (h : 0 < acc ∨ ∃ c ∈ ds, c ≠ '0') :
    0 < ds.foldl (fun a c => a * 10 + digitVal c) acc := by
  induction ds generalizing acc with
  | nil =>
    rcases h with h | ⟨c, hc, _⟩
    · simpa using h
    · cases hc
  | cons d ds ih =>
    rw [List.foldl_cons]
    apply ih
    · intro c hc
      exact hd c (List.mem_cons_of_mem _ hc)
    · rcases h with hacc | ⟨c, hc, hcne⟩
      · left
        have : acc ≤ acc * 10 := Nat.le_mul_of_pos_right acc (by omega)
        omega
      · rcases List.mem_cons.mp hc with hceq | hc'
        · subst hceq
          left
          have := digitVal_pos c (hd c (List.mem_cons_self c ds)) hcne
          omega
        · right
          exact ⟨c, hc', hcne⟩

theorem digitsToNat_pos (ds : List Char)
    (hd : ∀ c ∈ ds, isDigitChar c = true)
    (hnz : ∃ c ∈ ds, c ≠ '0') : 0 < digitsToNat ds :=
  digits_foldl_pos ds 0 hd (Or.inr hnz)

theorem not_blank_of_digit (c : Char) (hd : isDigitChar c = true) :
    (c == ' ' || c == '\t') = false := by
  unfold isDigitChar at hd
  rw [Bool.and_eq_true, decide_eq_true_eq, decide_eq_true_eq] at hd
  rw [Bool.or_eq_false_iff]
  constructor
  · rw [beq_eq_false_iff_ne]
    intro h
    subst h
    simp at hd
  · rw [beq_eq_false_iff_ne]
    intro h
    subst h
    simp at hd

theorem digit_ne_minus (c : Char) (hd : isDigitChar c = true) : c ≠ '-' := by
  intro h
  subst h
  simp [isDigitChar] at hd

theorem digit_ne_plus (c : Char) (hd : isDigitChar c = true) : c ≠ '+' := by
  intro h
  subst h
  simp [isDigitChar] at hd

theorem goSscanfD_all_digits (ds : List Char) (hne : ds ≠ [])
    (hd : ∀ c ∈ ds, isDigitChar c = true)
    (hrange : digitsToNat ds ≤ 2 ^ 63 - 1) :
    goSscanfD ⟨ds⟩ = some ((digitsToNat ds : Nat) : Int) := by
  cases ds with
  | nil => cases hne rfl
  | cons d rest =>
    have hdd := hd d (List.mem_cons_self d rest)
    have hdrop : (d :: rest).dropWhile (fun c => c == ' ' || c == '\t') = d :: rest := by
      rw [List.dropWhile_cons, not_blank_of_digit d hdd]
      simp
    have htake : (d :: rest).takeWhile isDigitChar = d :: rest :=
      List.takeWhile_eq_self_iff.mpr hd
    unfold goSscanfD
    simp only [String.data, hdrop]
    rw [if_neg (fun h => digit_ne_minus d hdd h), if_neg (fun h => digit_ne_plus d hdd h)]
    rw [htake]
    rw [if_neg (by simp), if_pos hrange]

theorem TextInput.update_focused (t : TextInput) (msg : Msg) :
    (t.update msg).focused = t.focused := by
  unfold TextInput.update
  split
  · split <;> rfl
  · rfl

/-- The focus invariant: at least one of the two input fields is focused. -/
def focusInv (m : model) : Prop :=
  m.searchInput.focused = true ∨ m.directoryInput.focused = true

theorem routeToComponent_focusInv (m : model) (msg : Msg) (h : focusInv m) :
    focusInv (routeToComponent m msg).1 := by
  unfold routeToComponent
  split
  · split
    · split
      · right; rfl
      · left; rfl
    · split
      · right; rfl
      · left; rfl
    · split
      · rcases h with h | h
        · left
          rw [TextInput.update_focused]
          exact h
        · right
          exact h
      · rcases h with h | h
        · left
          exact h
        · right
          rw [TextInput.update_focused]
          exact h
  · exact h
  · exact h

theorem update_focusInv (m : model) (msg : Msg) (h : focusInv m) :
    focusInv (m.Update msg).1 := by
  obtain ⟨tb, si, di, sr, fv, sm, smt, w, ht, rd, hp, cp, cs⟩ := m
  cases msg with
  | key k =>
    cases k with
    | quit => exact h
    | help => exact h
    | tab =>
      cases tb
      · exact h
      · exact h
      · left; rfl
    | search =>
      cases tb
      · exact h
      · left; rfl
      · left; rfl
    | back =>
      cases tb
      · exact h
      · left; rfl
      · exact h
    | enter =>
      cases tb
      · show focusInv (if si.value ≠ "" then _ else routeToComponent _ _).1
        split
        · exact h
        · exact routeToComponent_focusInv _ _ h
      · show focusInv (if sr.items.length > 0 then _ else routeToComponent _ _).1
        split
        · cases hsel : sr.selectedItem with
          | some item => exact h
          | none => exact routeToComponent_focusInv _ _ h
        · exact routeToComponent_focusInv _ _ h
      · exact routeToComponent_focusInv _ _ h
    | inputNext => exact routeToComponent_focusInv _ _ h
    | inputPrev => exact routeToComponent_focusInv _ _ h
    | other c => exact routeToComponent_focusInv _ _ h
  | searchFinished results err =>
    cases err with
    | none =>
      by_cases hr : results.length = 0
      · simp only [model.Update, if_pos hr]
        exact h
      · simp only [model.Update, if_neg hr]
        exact h
    | some e => exact h
  | fileLoaded content err =>
    cases err with
    | none => exact h
    | some e => exact h
  | windowSize w2 h2 => exact h

theorem run_focusInv (currentPath : String) (msgs : List Msg) :
    focusInv (run currentPath msgs) := by
  unfold run
  have hgen : ∀ (ms : List Msg) (m : model), focusInv m →
      focusInv (ms.foldl (fun a msg => (a.Update msg).1) m) := by
    intro ms
    induction ms with
    | nil => intro m hm; exact hm
    | cons x xs ih =>
      intro m hm
      rw [List.foldl_cons]
      exact ih _ (update_focusInv m x hm)
  exact hgen msgs _ (Or.inl rfl)

/-! ### Claims -/

/-- Claim C3: every `fileLoadedMsg` completion carrying an error makes the
dispatcher set an error-severity status message with the error detail and
force the active view to the results tab, from any state — no event
sequence leaves the active view at the file tab after a failed load. -/
theorem c3_file_load_error_forces_results (m : model) (content e : String) :
    (m.Update (Msg.fileLoaded content (some e))).1.activeTab = Tab.resultsTab ∧
    (m.Update (Msg.fileLoaded content (some e))).1.statusMessageType = "error" ∧
    (m.Update (Msg.fileLoaded content (some e))).1.statusMessage =
      "Error loading file: " ++ e ∧
    (m.Update (Msg.fileLoaded content (some e))).2 = [] :=
  ⟨rfl, rfl, rfl, rfl⟩

/-- Claim C8: a `searchFinishedMsg` completion carrying an error leaves the
search result list (items, selection cursor and filter) and every other
component exactly as before; only the status message and its severity
change, and no command is emitted. -/
theorem c8_search_error_list_untouched (m : model) (results : List Item) (e : String) :
    (m.Update (Msg.searchFinished results (some e))).1.searchResults.items =
      m.searchResults.items ∧
    (m.Update (Msg.searchFinished results (some e))).1.searchResults.cursor =
      m.searchResults.cursor ∧
    (m.Update (Msg.searchFinished results (some e))).1.searchResults.filter =
      m.searchResults.filter ∧
    (m.Update (Msg.searchFinished results (some e))).1.searchResults =
      m.searchResults ∧
    (m.Update (Msg.searchFinished results (some e))).1.activeTab = m.activeTab ∧
    (m.Update (Msg.searchFinished results (some e))).1.searchInput = m.searchInput ∧
    (m.Update (Msg.searchFinished results (some e))).1.directoryInput =
      m.directoryInput ∧
    (m.Update (Msg.searchFinished results (some e))).1.fileViewer = m.fileViewer ∧
    (m.Update (Msg.searchFinished results (some e))).1.statusMessage = "Error: " ++ e ∧
    (m.Update (Msg.searchFinished results (some e))).1.statusMessageType = "error" ∧
    (m.Update (Msg.searchFinished results (some e))).2 = [] :=
  ⟨rfl, rfl, rfl, rfl, rfl, rfl, rfl, rfl, rfl, rfl, rfl⟩

/-- Claim C5 (amended): a `lineNum` on which `Sscanf "%d"` fails makes
`loadFile` complete immediately with the invalid-line-number error and
spawn no external process.  (The source checks only that the text scans as
an integer; zero or negative values are not rejected — see the
counterexample.) -/
theorem c5_invalid_line_number (path ln : String) (env : LoadEnv)
    (h : goSscanfD ln = none) :
    loadFile path ln env =
      ({ content := "", err := some ("invalid line number: " ++ ln) }, []) := by
  unfold loadFile
  rw [h]

/-- Claim C5 counterexample: `"0"` does not parse as a *positive* integer
(it scans as `0`), yet `loadFile` spawns the pager and completes with its
output instead of an invalid-line-number error. -/
theorem c5_counterexample :
    goSscanfD "0" = some 0 ∧ ¬(0 < (0 : Int)) ∧
    loadFile "f.go" "0" ⟨⟨"CONTENT", none⟩, ⟨"", none⟩, Except.ok "x"⟩ =
      ({ content := "CONTENT", err := none }, [Proc.batHighlight "0" "f.go"]) :=
  ⟨by decide, by decide, by decide⟩

theorem c5_witness :
    loadFile "f.go" "abc" ⟨⟨"", none⟩, ⟨"", none⟩, Except.ok ""⟩ =
      ({ content := "", err := some ("invalid line number: " ++ "abc") }, []) :=
  c5_invalid_line_number "f.go" "abc" ⟨⟨"", none⟩, ⟨"", none⟩, Except.ok ""⟩ (by decide)

/-- Claim C7: when the pager is present (primary error does not say the
executable was not found) but its line-marking invocation fails, exactly
one retry without line-marking is spawned; its error (if any) becomes the
completion error, its output otherwise becomes the content; and a search
command never spawns more than one process. -/
theorem c7_load_retry (path ln : String) (env : LoadEnv) (e : String) (k : Int)
    (hp : goSscanfD ln = some k)
    (h1 : env.primary.err = some e)
    (h2 : strContains e "executable file not found" = false) :
    (loadFile path ln env).2 = [Proc.batHighlight ln path, Proc.batPlain path] ∧
    (loadFile path ln env).1.err = env.secondary.err ∧
    (env.secondary.err = none →
      (loadFile path ln env).1.content = env.secondary.output) ∧
    (∀ (p q : String) (r : ExecResult), ((executeRipgrep p q r).2).length ≤ 1) := by
  have hmain : (loadFile path ln env).2 =
        [Proc.batHighlight ln path, Proc.batPlain path] ∧
      (loadFile path ln env).1.err = env.secondary.err ∧
      (env.secondary.err = none →
        (loadFile path ln env).1.content = env.secondary.output) := by
    unfold loadFile
    rw [hp]
    simp only [h1, h2]
    cases hs : env.secondary.err with
    | some e2 => simp [hs]
    | none => simp [hs]
  refine ⟨hmain.1, hmain.2.1, hmain.2.2, ?_⟩
  intro p q r
  unfold executeRipgrep
  split
  · simp
  · split
    · simp
    · split
      · simp
      · simp

theorem c7_witness :
    (loadFile "f.go" "3"
        ⟨⟨"boom", some "exit status 1"⟩, ⟨"PLAIN", none⟩, Except.ok "x"⟩).2 =
      [Proc.batHighlight "3" "f.go", Proc.batPlain "f.go"] ∧
    (loadFile "f.go" "3"
        ⟨⟨"boom", some "exit status 1"⟩, ⟨"PLAIN", none⟩, Except.ok "x"⟩).1.err =
      (none : Option String) ∧
    ((none : Option String) = none →
      (loadFile "f.go" "3"
          ⟨⟨"boom", some "exit status 1"⟩, ⟨"PLAIN", none⟩, Except.ok "x"⟩).1.content =
        "PLAIN") ∧
    (∀ (p q : String) (r : ExecResult), ((executeRipgrep p q r).2).length ≤ 1) :=
  c7_load_retry "f.go" "3"
    ⟨⟨"boom", some "exit status 1"⟩, ⟨"PLAIN", none⟩, Except.ok "x"⟩
    "exit status 1" 3 (by decide) rfl (by decide)

/-- Claim C6: a nonzero-status run whose combined output trims to empty is
mapped to a successful completion with zero matches (the tool's
no-matches convention), not an error. -/
theorem c6_nonzero_empty_output_success (pattern path out : String)
    (h1 : pattern ≠ "") (h2 : goTrimSpaceL out.data = []) :
    executeRipgrep pattern path ⟨out, true⟩ =
      ({ results := [], err := none }, [Proc.rg pattern path]) := by
  have hall := all_space_of_goTrimSpaceL_nil out.data h2
  have hc : strContains out "No such file or directory" = false :=
    strContains_false_of_all_space out "No such file or directory" 'N'
      "o such file or directory".data rfl (by decide) hall
  unfold executeRipgrep
  rw [if_neg h1]
  simp [hc, h2]

theorem c6_witness :
    executeRipgrep "x" "." ⟨" \n ", true⟩ =
      ({ results := [], err := none }, [Proc.rg "x" "."]) :=
  c6_nonzero_empty_output_success "x" "." " \n " (by decide) (by decide)

/-- Claim C1 (amended): a nonzero-status run with non-empty combined output
that does not indicate a missing root path is not reported as an error at
all: `executeRipgrep` falls through to the line parser and completes
successfully with whatever records the parser extracts from the raw
output (no `SearchToolError` exists in the code). -/
theorem c1_error_output_parsed_as_success (pattern path out : String)
    (h1 : pattern ≠ "")
    (h2 : strContains out "No such file or directory" = false)
    (h3 : goTrimSpaceL out.data ≠ []) :
    executeRipgrep pattern path ⟨out, true⟩ =
      ({ results := parseRipgrepOutputL out.data, err := none },
       [Proc.rg pattern path]) := by
  unfold executeRipgrep
  rw [if_neg h1]
  simp [h2, List.isEmpty_iff, h3]

/-- Claim C1 counterexample: with nonzero status and diagnostic output
`"rg: error: regex parse error"` (non-empty, no missing-root marker), the
completion delivered is a *success* whose matches are the parser's reading
of the diagnostic text — not a `SearchToolError`. -/
theorem c1_counterexample :
    (executeRipgrep "(" "." ⟨"rg: error: regex parse error", true⟩).1 =
      { results := [⟨"rg", "error", "regex parse error", "rg"⟩], err := none } := by
  decide

theorem c1_witness :
    executeRipgrep "x" "." ⟨"a.go:1:hit", true⟩ =
      ({ results := parseRipgrepOutputL "a.go:1:hit".data, err := none },
       [Proc.rg "x" "."]) :=
  c1_error_output_parsed_as_success "x" "." "a.go:1:hit" (by decide) (by decide)
    (by decide)

/-- Claim C2 (amended): in every reachable state at least one of the two
input fields is focused (never neither); a `NextField`/`PrevField` event in
the search tab toggles focus (the pattern field's flag flips, the
directory field's flag becomes the pattern field's old flag, so exactly
one field is focused afterwards).  Re-entering the search tab, however,
focuses the pattern field without blurring the directory field, so a state
with both fields focused is reachable — see the counterexample. -/
theorem c2_focus_toggle (currentPath : String) (msgs : List Msg) (m : model)
    (hm : m.activeTab = Tab.searchTab) :
    ((run currentPath msgs).searchInput.focused = true ∨
     (run currentPath msgs).directoryInput.focused = true) ∧
    (m.Update (Msg.key KeyPress.inputNext)).1.directoryInput.focused
      = m.searchInput.focused ∧
    (m.Update (Msg.key KeyPress.inputNext)).1.searchInput.focused
      = !m.searchInput.focused ∧
    (m.Update (Msg.key KeyPress.inputPrev)).1.directoryInput.focused
      = m.searchInput.focused ∧
    (m.Update (Msg.key KeyPress.inputPrev)).1.searchInput.focused
      = !m.searchInput.focused := by
  refine ⟨run_focusInv currentPath msgs, ?_, ?_, ?_, ?_⟩ <;>
  · obtain ⟨tb, si, di, sr, fv, sm, smt, w, ht, rd, hp, cp, cs⟩ := m
    cases tb
    · obtain ⟨f, v⟩ := si
      cases f
      · rfl
      · rfl
    · exact Tab.noConfusion hm
    · exact Tab.noConfusion hm

/-- Claim C2 counterexample: toggle focus to the directory field, cycle
through the tabs back to the search tab — re-entry focuses the pattern
field without blurring the directory field, so both fields are focused. -/
theorem c2_counterexample :
    (run "." [Msg.key KeyPress.inputNext, Msg.key KeyPress.tab,
              Msg.key KeyPress.tab, Msg.key KeyPress.tab]).searchInput.focused
      = true ∧
    (run "." [Msg.key KeyPress.inputNext, Msg.key KeyPress.tab,
              Msg.key KeyPress.tab, Msg.key KeyPress.tab]).directoryInput.focused
      = true :=
  ⟨by decide, by decide⟩

theorem c2_witness :
    ((run "." []).searchInput.focused = true ∨
     (run "." []).directoryInput.focused = true) ∧
    ((initialModel ".").Update (Msg.key KeyPress.inputNext)).1.directoryInput.focused
      = (initialModel ".").searchInput.focused :=
  ⟨(c2_focus_toggle "." [] (initialModel ".") rfl).1,
   (c2_focus_toggle "." [] (initialModel ".") rfl).2.1⟩

/-- Claim C4: a line of search-tool output yields a record iff it has at
least two colons (blank lines have none, so are dropped with the malformed
ones); the third field is the undivided remainder after the first two
colons, trimmed; and the output's record list is exactly the well-formed
lines, in order, mapped to their records (count and order preserved). -/
theorem c4_line_parsing (output : String) :
    (∀ l ∈ splitOnChar '\n' output.data,
       (∃ r, parseLineL l = some r) ↔ 2 ≤ l.count ':') ∧
    (∀ p0 p1 rest, ':' ∉ p0 → ':' ∉ p1 →
       parseLineL (p0 ++ ':' :: (p1 ++ ':' :: rest)) =
         some { fileName := ⟨goTrimSpaceL p0⟩, lineNum := ⟨goTrimSpaceL p1⟩,
                content := ⟨goTrimSpaceL rest⟩, fullPath := ⟨goTrimSpaceL p0⟩ }) ∧
    parseRipgrepOutputL output.data =
      ((splitOnChar '\n' output.data).filter
        (fun l => decide (2 ≤ l.count ':'))).map lineRecord ∧
    (parseRipgrepOutputL output.data).length =
      ((splitOnChar '\n' output.data).filter
        (fun l => decide (2 ≤ l.count ':'))).length := by
  have hf : ∀ a : List Char, parseLineL a =
      if (fun l => decide (2 ≤ l.count ':')) a = true
      then some (lineRecord a) else none := by
    intro a
    rw [parseLineL_eq_ite]
    by_cases hca : 2 ≤ a.count ':'
    · rw [if_pos hca, if_pos (by simpa using hca)]
    · rw [if_neg hca, if_neg (by simpa using hca)]
  have hmap : parseRipgrepOutputL output.data =
      ((splitOnChar '\n' output.data).filter
        (fun l => decide (2 ≤ l.count ':'))).map lineRecord := by
    unfold parseRipgrepOutputL
    exact filterMap_eq_filter_map parseLineL _ lineRecord hf _
  refine ⟨?_, ?_, hmap, by rw [hmap, List.length_map]⟩
  · intro l _
    rw [parseLineL_eq_ite]
    by_cases hca : 2 ≤ l.count ':'
    · rw [if_pos hca]
      exact ⟨fun _ => hca, fun _ => ⟨lineRecord l, rfl⟩⟩
    · rw [if_neg hca]
      constructor
      · intro hr
        obtain ⟨r, hr⟩ := hr
        cases hr
      · intro h
        exact absurd h hca
  · intro p0 p1 rest h0 h1
    have hb1 := breakAtChar_append ':' p0 (p1 ++ ':' :: rest) h0
    have hb2 := breakAtChar_append ':' p1 rest h1
    have hsplit : splitNChar ':' 3 (p0 ++ ':' :: (p1 ++ ':' :: rest)) =
        [p0, p1, rest] := by
      rw [show (3 : Nat) = Nat.succ (Nat.succ 1) from rfl]
      simp only [splitNChar, hb1, hb2]
    have hmem : ':' ∈ p0 ++ ':' :: (p1 ++ ':' :: rest) :=
      List.mem_append.mpr (Or.inr (List.mem_cons_self _ _))
    have htrim : goTrimSpaceL (p0 ++ ':' :: (p1 ++ ':' :: rest)) ≠ [] :=
      goTrimSpaceL_ne_nil_of_mem _ ':' hmem goIsSpace_colon
    unfold parseLineL
    rw [if_neg htrim, hsplit]

theorem c4_witness :
    parseLineL ("a.go".data ++ ':' :: ("10".data ++ ':' :: "foo:bar".data)) =
      some { fileName := ⟨goTrimSpaceL "a.go".data⟩,
             lineNum := ⟨goTrimSpaceL "10".data⟩,
             content := ⟨goTrimSpaceL "foo:bar".data⟩,
             fullPath := ⟨goTrimSpaceL "a.go".data⟩ } :=
  (c4_line_parsing "").2.1 "a.go".data "10".data "foo:bar".data
    (by decide) (by decide)

/-- Claim C9 (amended): the parser stores the trimmed second colon field as
`lineNum` without validating it, so it need not parse as a positive
integer in general (see the counterexample); whenever that field is a
non-empty digit string with some nonzero digit whose value fits the
program's 64-bit `int` — as in all genuine search tool output — it does
scan as a positive integer. -/
theorem c9_lineNum_parses_when_numeric (line : List Char) (r : Item)
    (h : parseLineL line = some r)
    (hne : r.lineNum.data ≠ [])
    (hdig : ∀ c ∈ r.lineNum.data, isDigitChar c = true)
    (hnz : ∃ c ∈ r.lineNum.data, c ≠ '0')
    (hrange : digitsToNat r.lineNum.data ≤ 2 ^ 63 - 1) :
    ∃ k : Int, goSscanfD r.lineNum = some k ∧ 0 < k := by
  refine ⟨((digitsToNat r.lineNum.data : Nat) : Int), ?_, ?_⟩
  · exact goSscanfD_all_digits r.lineNum.data hne hdig hrange
  · exact_mod_cast digitsToNat_pos r.lineNum.data hdig hnz

/-- Claim C9 counterexample: from the output line `"a.go:zzz:foo"` the
parser constructs a record whose `lineNum` `"zzz"` does not scan as an
integer at all, let alone a positive one; likewise a digit string beyond
the 64-bit `int` range is stored unvalidated and fails the scan with a
value-out-of-range error. -/
theorem c9_counterexample :
    parseRipgrepOutputL "a.go:zzz:foo".data =
      [{ fileName := "a.go", lineNum := "zzz", content := "foo",
         fullPath := "a.go" }] ∧
    goSscanfD "zzz" = none ∧
    parseRipgrepOutputL "a.go:99999999999999999999:x".data =
      [{ fileName := "a.go", lineNum := "99999999999999999999", content := "x",
         fullPath := "a.go" }] ∧
    goSscanfD "99999999999999999999" = none :=
  ⟨by decide, by decide, by decide, by decide⟩

theorem c9_witness :
    ∃ k : Int,
      goSscanfD (Item.lineNum ⟨"a.go", "3", "x", "a.go"⟩) = some k ∧ 0 < k :=
  c9_lineNum_parses_when_numeric "a.go:3:x".data ⟨"a.go", "3", "x", "a.go"⟩
    (by decide) (by decide) (by decide) ⟨'3', by decide, by decide⟩ (by decide)

/-- Claim C10: every parsed record has `fullPath` equal to `fileName`, both
the trimmed text before the line's first colon; and confirming a selected
record in the results tab emits a load command for exactly that
`fullPath`/`lineNum` — the path text as printed by the tool, with no
directory prefix added. -/
theorem c10_fullPath_is_fileName (line : List Char) (r : Item)
    (h : parseLineL line = some r) (m : model)
    (hTab : m.activeTab = Tab.resultsTab)
    (hLen : m.searchResults.items.length > 0)
    (hSel : m.searchResults.selectedItem = some r) :
    r.fullPath = r.fileName ∧
    (∃ p rest, breakAtChar ':' line = some (p, rest) ∧
       r.fileName = ⟨goTrimSpaceL p⟩ ∧ r.fullPath = ⟨goTrimSpaceL p⟩) ∧
    (m.Update (Msg.key KeyPress.enter)).2 = [Cmd.load r.fullPath r.lineNum] := by
  unfold parseLineL at h
  split at h
  · cases h
  · split at h
    · rename_i p0 p1 p2 hsplit
      cases h
      refine ⟨rfl, ?_, ?_⟩
      · have hb : ∃ q, breakAtChar ':' line = some (p0, q) := by
          cases hbk : breakAtChar ':' line with
          | none =>
            exfalso
            rw [show (3 : Nat) = Nat.succ (Nat.succ 1) from rfl] at hsplit
            simp only [splitNChar, hbk] at hsplit
            exact absurd hsplit (by simp)
          | some pq =>
            obtain ⟨p, q⟩ := pq
            rw [show (3 : Nat) = Nat.succ (Nat.succ 1) from rfl] at hsplit
            simp only [splitNChar, hbk] at hsplit
            injection hsplit with h1 h2
            refine ⟨q, ?_⟩
            rw [← h1]
        obtain ⟨q, hq⟩ := hb
        exact ⟨p0, q, hq, rfl, rfl⟩
      · simp only [model.Update, hTab, hSel]
        rw [if_pos hLen]
    · cases h

theorem c10_witness :
    Item.fullPath ⟨"a.go", "3", "x", "a.go"⟩
      = Item.fileName ⟨"a.go", "3", "x", "a.go"⟩ ∧
    (∃ p rest, breakAtChar ':' "a.go:3:x".data = some (p, rest) ∧
       Item.fileName ⟨"a.go", "3", "x", "a.go"⟩ = ⟨goTrimSpaceL p⟩ ∧
       Item.fullPath ⟨"a.go", "3", "x", "a.go"⟩ = ⟨goTrimSpaceL p⟩) ∧
    (model.Update
        { initialModel "." with
          activeTab := Tab.resultsTab,
          searchResults :=
            { items := [⟨"a.go", "3", "x", "a.go"⟩], cursor := 0, filter := "" } }
        (Msg.key KeyPress.enter)).2 =
      [Cmd.load (Item.fullPath ⟨"a.go", "3", "x", "a.go"⟩)
        (Item.lineNum ⟨"a.go", "3", "x", "a.go"⟩)] :=
  c10_fullPath_is_fileName "a.go:3:x".data ⟨"a.go", "3", "x", "a.go"⟩ (by decide)
    _ rfl (by decide) (by decide)
